import Mathlib

/-!
Shallow embedding of the cryptographic core of the hushkey-app repository:
the TOTP/HOTP engine (`src/unnamed/part_000`), the breach-monitoring
k-anonymity protocol (`src/src/services/breachMonitoring.ts`) and the
encryption/key-derivation services (`src/src/services/pwa.ts`).

Bytes are modelled as `Nat` values below 256, byte strings as `List Nat`,
and JavaScript strings as Lean `String`/`List Char`.  JavaScript bitwise
operations are embedded as exact `Nat` arithmetic with explicit `% 2^w`
reductions: on the value ranges the code keeps (32-bit words, bytes), the
JS `&`, `|`, `<<`, `>>>` coincide with the corresponding arithmetic on
`Nat`, e.g. `x & 0xff = x % 256` and `(v << 8) | b = v * 256 + b` for
`b < 256`.

Platform primitives that the repository calls but does not define
(`crypto.subtle` SHA-1/SHA-256/HMAC, libsodium) are implemented here from
their standards (FIPS 180-4, RFC 2104), validated against published test
vectors, or modelled from the specification where noted.
-/

set_option maxRecDepth 100000

/-- Lower-case hexadecimal digit for a value in 0..15 (JS `b.toString(16)`). -/
def hexDigitLower (n : Nat) : Char :=
  if n < 10 then Char.ofNat (48 + n) else Char.ofNat (87 + n)

/-- Two lower-case hex characters of one byte (JS `b.toString(16).padStart(2,'0')`). -/
def byteToHexChars (b : Nat) : List Char :=
  [hexDigitLower (b / 16), hexDigitLower (b % 16)]

/-- Lower-case hex string of a byte list, as produced by the services' hash
formatting (`Array.from(bytes).map(b => b.toString(16).padStart(2,'0')).join('')`). -/
def bytesToHexLower (bs : List Nat) : List Char :=
  (bs.map byteToHexChars).flatten

/-- ASCII upper-casing of one character (JS `String.prototype.toUpperCase` on
the hex alphabet this code applies it to). -/
def upperChar (c : Char) : Char :=
  if 97 ≤ c.toNat ∧ c.toNat ≤ 122 then Char.ofNat (c.toNat - 32) else c

/-- ASCII upper-casing of a character list. -/
def upperChars (cs : List Char) : List Char := cs.map upperChar

/-- UTF-8 encoding of one character (the JS `TextEncoder`). -/
def utf8EncodeChar (c : Char) : List Nat :=
  let n := c.toNat
  if n < 128 then [n]
  else if n < 2048 then [192 + n / 64, 128 + n % 64]
  else if n < 65536 then [224 + n / 4096, 128 + n / 64 % 64, 128 + n % 64]
  else [240 + n / 262144, 128 + n / 4096 % 64, 128 + n / 64 % 64, 128 + n % 64]

/-- UTF-8 encoding of a string (the JS `TextEncoder.encode`). -/
def utf8Encode (s : String) : List Nat :=
  (s.data.map utf8EncodeChar).flatten

/-- Splits a list into consecutive chunks of size `n`; `fuel` bounds the
recursion (callers pass the list length, which suffices for `n ≥ 1`). -/
def chunksAux (n : Nat) : Nat → List α → List (List α)
  | 0, _ => []
  | _, [] => []
  | fuel+1, l => l.take n :: chunksAux n fuel (l.drop n)

/-- Splits a list into consecutive chunks of size `n`. -/
def chunks (n : Nat) (l : List α) : List (List α) := chunksAux n l.length l

/-- Reduction modulo 2^32, the word size of SHA-1/SHA-256. -/
def w32 (n : Nat) : Nat := n % 4294967296

/-- Left rotation of a 32-bit word by `n` places (`0 < n < 32`), written as
exact arithmetic: the low part shifted up plus the high part shifted down. -/
def rotl32 (x n : Nat) : Nat :=
  (x * 2 ^ n + x / 2 ^ (32 - n)) % 4294967296

/-- Big-endian bytes of a 32-bit word. -/
def wordToBytesBE (w : Nat) : List Nat :=
  [w / 16777216 % 256, w / 65536 % 256, w / 256 % 256, w % 256]

/-- Big-endian 32-bit word from a list of bytes. -/
def bytesToWordBE (l : List Nat) : Nat :=
  l.foldl (fun acc b => acc * 256 + b) 0

/-- Modelled from the spec: Merkle–Damgård padding of SHA-1/SHA-256
(FIPS 180-4): append 0x80, zero bytes to 56 mod 64, then the bit length as
8 big-endian bytes. -/
def shaPad (msg : List Nat) : List Nat :=
  let len := msg.length
  let bitLen := len * 8
  let padZeros := (119 - len % 64) % 64
  msg ++ [128] ++ List.replicate padZeros 0 ++
    [bitLen / 72057594037927936 % 256, bitLen / 281474976710656 % 256,
     bitLen / 1099511627776 % 256, bitLen / 4294967296 % 256,
     bitLen / 16777216 % 256, bitLen / 65536 % 256,
     bitLen / 256 % 256, bitLen % 256]

/-- SHA-1 message-schedule extension: starting from the 16 block words
(newest first), prepends `fuel` further words `rotl1 (w3 ^ w8 ^ w14 ^ w16)`. -/
def sha1Schedule : Nat → List Nat → List Nat
  | 0, acc => acc
  | fuel+1, acc =>
    let x := rotl32 ((acc.getD 2 0) ^^^ (acc.getD 7 0) ^^^ (acc.getD 13 0) ^^^ (acc.getD 15 0)) 1
    sha1Schedule fuel (x :: acc)

/-- SHA-1 round function `f_t` (FIPS 180-4); `NOT b` on 32 bits is
`2^32 - 1 - b`. -/
def sha1F (t b c d : Nat) : Nat :=
  if t < 20 then (b &&& c) ||| ((4294967295 - b) &&& d)
  else if t < 40 then b ^^^ c ^^^ d
  else if t < 60 then (b &&& c) ||| (b &&& d) ||| (c &&& d)
  else b ^^^ c ^^^ d

/-- SHA-1 round constants `K_t`. -/
def sha1K (t : Nat) : Nat :=
  if t < 20 then 1518500249
  else if t < 40 then 1859775393
  else if t < 60 then 2400959708
  else 3395469782

/-- SHA-1 state: five 32-bit words. -/
structure Sha1State where
  a : Nat
  b : Nat
  c : Nat
  d : Nat
  e : Nat
deriving Repr, DecidableEq

/-- SHA-1 compression rounds over the 80-word schedule. -/
def sha1Rounds : List Nat → Nat → Sha1State → Sha1State
  | [], _, st => st
  | wt :: ws, t, st =>
    let tmp := w32 (rotl32 st.a 5 + sha1F t st.b st.c st.d + st.e + sha1K t + wt)
    sha1Rounds ws (t+1) ⟨tmp, st.a, rotl32 st.b 30, st.c, st.d⟩

/-- SHA-1 compression of one 64-byte block into the chaining state. -/
def sha1Compress (h : Sha1State) (block : List Nat) : Sha1State :=
  let ws0 := (chunks 4 block).map bytesToWordBE
  let ws := (sha1Schedule 64 ws0.reverse).reverse
  let st := sha1Rounds ws 0 h
  ⟨w32 (h.a + st.a), w32 (h.b + st.b), w32 (h.c + st.c), w32 (h.d + st.d), w32 (h.e + st.e)⟩

/-- SHA-1 initial chaining value. -/
def sha1Init : Sha1State :=
  ⟨1732584193, 4023233417, 2562383102, 271733878, 3285377520⟩

/-- Digest bytes of a final SHA-1 state. -/
def sha1StateBytes (st : Sha1State) : List Nat :=
  wordToBytesBE st.a ++ wordToBytesBE st.b ++ wordToBytesBE st.c ++
    wordToBytesBE st.d ++ wordToBytesBE st.e

/-- Modelled from the spec: SHA-1 of a byte string (FIPS 180-4), the
`crypto.subtle.digest('SHA-1', ·)` platform primitive the services call. -/
def sha1Bytes (msg : List Nat) : List Nat :=
  sha1StateBytes ((chunks 64 (shaPad msg)).foldl sha1Compress sha1Init)

/-- HMAC key preprocessing (RFC 2104, block size 64): hash keys longer than a
block, then right-pad with zero bytes to the block size. -/
def hmacKeyPad (hash : List Nat → List Nat) (key : List Nat) : List Nat :=
  let k0 := if key.length > 64 then hash key else key
  k0 ++ List.replicate (64 - k0.length) 0

/-- Modelled from the spec: HMAC over a 64-byte-block hash function
(RFC 2104), the `crypto.subtle.sign('HMAC', ·, ·)` platform primitive. -/
def hmacGeneric (hash : List Nat → List Nat) (key msg : List Nat) : List Nat :=
  let k := hmacKeyPad hash key
  hash ((k.map (fun b => b ^^^ 92)) ++ hash ((k.map (fun b => b ^^^ 54)) ++ msg))

/-- HMAC-SHA1, as used by `TOTPService.hmacSHA1`. -/
def hmacSHA1 (key msg : List Nat) : List Nat := hmacGeneric sha1Bytes key msg

/-! ## TOTPService (src/unnamed/part_000)

The service's methods are pure up to `Date.now()`; time-dependent methods
take the current Unix epoch time in seconds (`epoch` in the source) as an
explicit argument. -/

namespace TOTPService

/-- Decimal digit character. -/
def decDigitChar (n : Nat) : Char := Char.ofNat (48 + n)

/-- Decimal representation helper; `fuel` bounds the recursion depth. -/
def natToDecAux : Nat → Nat → List Char
  | 0, _ => []
  | fuel+1, n =>
    if n < 10 then [decDigitChar n]
    else natToDecAux fuel (n / 10) ++ [decDigitChar (n % 10)]

/-- Decimal representation of a natural number (JS `Number.prototype.toString`
on a non-negative integer). -/
def natToDecChars (n : Nat) : List Char := natToDecAux (n+1) n

/-- Left padding with a fill character up to a target length (JS
`String.prototype.padStart`). -/
def padStartChars (s : List Char) (len : Nat) (c : Char) : List Char :=
  List.replicate (len - s.length) c ++ s

/-- RFC 4648 base32 alphabet used by `bytesToBase32`/`base32ToBytes`. -/
def base32Alphabet : List Char := "ABCDEFGHIJKLMNOPQRSTUVWXYZ234567".data

/-- Membership in the base32 alphabet (the `[^A-Z2-7]` filter of
`base32ToBytes`). -/
def isBase32Char (c : Char) : Bool := base32Alphabet.contains c

/-- Inner while-loop of `bytesToBase32`: while `bits >= 5`, emit the sextet
`(value >>> (bits-5)) & 31 = value / 2^(bits-5) % 32` and keep the low
`bits-5` bits (`value &= (1 << bits)-1`).  `fuel` bounds the iterations;
callers pass `bits`, which suffices since each pass consumes 5 bits. -/
def base32DrainAux : Nat → Nat → Nat → List Nat × Nat × Nat
  | 0, value, bits => ([], value, bits)
  | fuel+1, value, bits =>
    if 5 ≤ bits then
      let r := base32DrainAux fuel (value % 2 ^ (bits - 5)) (bits - 5)
      (value / 2 ^ (bits - 5) % 32 :: r.1, r.2.1, r.2.2)
    else ([], value, bits)

/-- Byte loop of `bytesToBase32`, producing the sextet indices: per byte,
`value = (value << 8) | b = value * 256 + b` (equal for `b < 256`), then the
drain loop; at the end, if bits remain, emit `(value << (5-bits)) & 31`. -/
def base32EncodeCore : List Nat → Nat → Nat → List Nat
  | [], value, bits =>
    if 0 < bits then [value * 2 ^ (5 - bits) % 32] else []
  | b :: bs, value, bits =>
    let r := base32DrainAux (bits + 8) (value * 256 + b) (bits + 8)
    r.1 ++ base32EncodeCore bs r.2.1 r.2.2

/-- Base32 encoding without padding (`TOTPService.bytesToBase32`). -/
def bytesToBase32 (bytes : List Nat) : List Char :=
  (base32EncodeCore bytes 0 0).map (fun s => base32Alphabet.getD s 'A')

/-- Character loop of `base32ToBytes`: per alphabet character,
`value = (value << 5) | idx = value * 32 + idx` (equal for `idx < 32`),
`bits += 5`; when `bits >= 8`, emit `(value >>> (bits-8)) & 0xff` and keep
the low `bits-8` bits.  A character outside the alphabet (index 32 below,
`-1` in the source) is skipped — dead after the filter in `base32ToBytes`. -/
def base32DecodeCore : List Char → Nat → Nat → List Nat
  | [], _, _ => []
  | c :: cs, value, bits =>
    let idx := base32Alphabet.indexOf c
    if idx ≥ 32 then base32DecodeCore cs value bits
    else
      let value1 := value * 32 + idx
      let bits1 := bits + 5
      if 8 ≤ bits1 then
        (value1 / 2 ^ (bits1 - 8) % 256) ::
          base32DecodeCore cs (value1 % 2 ^ (bits1 - 8)) (bits1 - 8)
      else base32DecodeCore cs value1 bits1

/-- Base32 decoding (`TOTPService.base32ToBytes`): uppercase, strip
characters outside `A–Z2–7`, then decode 5-bit groups into bytes. -/
def base32ToBytes (b32 : List Char) : List Nat :=
  base32DecodeCore ((upperChars b32).filter (fun c => isBase32Char c)) 0 0

/-- Loop body array of `longToBytes`: `k` iterations of
`result[i] = value & 0xff; value = Math.floor(value / 256)` filling the array
from the highest index down. -/
def longToBytesAux : Nat → Nat → List Nat
  | 0, _ => []
  | k+1, v => longToBytesAux k (v / 256) ++ [v % 256]

/-- 8-byte big-endian encoding of a counter (`TOTPService.longToBytes`). -/
def longToBytes (value : Nat) : List Nat := longToBytesAux 8 value

/-- Dynamic-truncation arithmetic shared by `generateHOTP`/`generateTOTP`:
`offset = hmac[hmac.length-1] & 0xf`; `code` packs
`(hmac[offset] & 0x7f) << 24 | (hmac[offset+1] & 0xff) << 16 |
(hmac[offset+2] & 0xff) << 8 | (hmac[offset+3] & 0xff)` — for byte values
these bit ranges are disjoint, so the packing is the sum below. -/
def truncateHmac (hmac : List Nat) : Nat :=
  let offset := hmac.getD (hmac.length - 1) 0 % 16
  hmac.getD offset 0 % 128 * 16777216 + hmac.getD (offset + 1) 0 % 256 * 65536 +
    hmac.getD (offset + 2) 0 % 256 * 256 + hmac.getD (offset + 3) 0 % 256

/-- HOTP generation (`TOTPService.generateHOTP`). -/
def generateHOTP (secret : List Char) (counter : Nat) (digits : Nat) : List Char :=
  let hmac := hmacSHA1 (base32ToBytes secret) (longToBytes counter)
  let code := truncateHmac hmac
  padStartChars (natToDecChars (code % 10 ^ digits)) digits '0'

/-- TOTP generation (`TOTPService.generateTOTP`) at epoch second `epoch`:
`timeWindow = floor(epoch / timeStep)`, then the HOTP body at that counter. -/
def generateTOTP (secret : List Char) (timeStep : Nat) (digits : Nat) (epoch : Nat) : List Char :=
  let timeWindow := epoch / timeStep
  let hmac := hmacSHA1 (base32ToBytes secret) (longToBytes timeWindow)
  let code := truncateHmac hmac
  padStartChars (natToDecChars (code % 10 ^ digits)) digits '0'

/-- TOTP validation (`TOTPService.validateTOTP`) at epoch second `epoch`.
The source iterates `i` from `-window` to `window`, computes
`checkWindow = currentWindow + i` — and then never uses it: every iteration
compares `code` against `generateTOTP(secret, timeStep, code.length)` at the
current time. -/
def validateTOTP (secret code : List Char) (timeStep window : Nat) (epoch : Nat) : Bool :=
  let currentWindow := epoch / timeStep
  (List.range (2 * window + 1)).any (fun i =>
    let _checkWindow := currentWindow + i - window
    generateTOTP secret timeStep code.length epoch == code)

/-- Modelled from the spec: the §4.4 contract for `validateTOTP` — accept
exactly when `code` matches the TOTP computed at some counter within
`± window` steps of `floor(epoch / timeStep)` (counters below zero are
clamped to zero by the truncated subtraction; all claims use
`window ≤ floor(epoch / timeStep)`). -/
def specValidateTOTP (secret code : List Char) (timeStep window : Nat) (epoch : Nat) : Bool :=
  let currentWindow := epoch / timeStep
  (List.range (2 * window + 1)).any (fun i =>
    let checkWindow := currentWindow + i - window
    generateHOTP secret checkWindow code.length == code)

end TOTPService

/-- Modelled from the spec: the RFC 4226 HOTP value over a secret byte
string — HMAC-SHA1 of the counter as 8 big-endian bytes under the secret,
dynamic truncation (offset = low nibble of the last HMAC byte, 4 bytes at
that offset masked to 31 bits), reduced modulo `10^digits`, zero-padded to
`digits` characters. -/
def rfc4226HOTP (secretBytes : List Nat) (counter digits : Nat) : List Char :=
  let hmac := hmacSHA1 secretBytes
    [counter / 72057594037927936 % 256, counter / 281474976710656 % 256,
     counter / 1099511627776 % 256, counter / 4294967296 % 256,
     counter / 16777216 % 256, counter / 65536 % 256,
     counter / 256 % 256, counter % 256]
  let offset := hmac.getD (hmac.length - 1) 0 % 16
  let fourBytes := hmac.getD offset 0 * 16777216 + hmac.getD (offset + 1) 0 * 65536 +
    hmac.getD (offset + 2) 0 * 256 + hmac.getD (offset + 3) 0
  let code := fourBytes % 2147483648
  TOTPService.padStartChars (TOTPService.natToDecChars (code % 10 ^ digits)) digits '0'

/-! ## BreachMonitoringService (src/src/services/breachMonitoring.ts)

`checkPassword` is embedded as a function of its explicit effects: the
`localStorage` cache is a map from key strings to the JSON-parsed stored
entries, the wall clock `Date.now()` is the parameter `nowMs`
(milliseconds), and a successful `fetch` is a function `net` from the
request URL to the response body; the outcome records the returned result
or the thrown error, the list of URLs fetched, and the updated cache.

The cache write goes through `JSON.stringify`, which renders the `Date`
field `checkedAt` as its ISO string, and the read through `JSON.parse`,
which has no reviver — the revived `checkedAt` is therefore a plain
string, not a `Date`.  The freshness test
`Date.now() - cached.checkedAt.getTime()` consequently throws a
`TypeError` on every cached entry, which the outer handler of
`checkPassword` catches and rethrows as an `Error`; the embedding models
this faithfully. -/

namespace BreachMonitoringService

/-- Remote API base (`HIBP_API_BASE`). -/
def HIBP_API_BASE : List Char := "https://api.pwnedpasswords.com".data

/-- Cache time-to-live in milliseconds (`CACHE_DURATION = 24 * 60 * 60 * 1000`);
the freshness comparison that would consume it is never reached, because
`.getTime()` throws first (see `checkPassword`). -/
def CACHE_DURATION : Int := 86400000

/-- Breach-check result (`BreachResult`); `checkedAt` is the millisecond
timestamp of the `Date`, `count = none` embeds the omitted (`undefined`)
field. -/
structure BreachResult where
  breached : Bool
  count : Option Nat
  checkedAt : Int
  passwordHash : List Char
deriving Repr, DecidableEq

/-- Stored form of a cache entry after the `localStorage` JSON round trip:
`JSON.parse(JSON.stringify(result))` leaves every field as is except
`checkedAt`, which comes back as the ISO string `JSON.stringify` rendered
the `Date` to — a string, not a `Date`. -/
structure StoredBreachResult where
  breached : Bool
  count : Option Nat
  checkedAt : List Char
  passwordHash : List Char
deriving Repr, DecidableEq

/-- Error thrown by `checkPassword`'s outer catch handler
(`Error("Failed to check password breach status: ...")`), the spec's
`BreachCheckError`. -/
inductive BreachCheckError where
  | checkFailed
deriving Repr, DecidableEq

/-- Decimal rendering of a millisecond timestamp, standing in for the ISO
date string `JSON.stringify` produces: the stored `checkedAt` text is only
ever passed to `.getTime()`, which throws on every string, so no behavior
in this service depends on its exact characters — only on its being a
string. -/
def timestampText (ms : Int) : List Char :=
  if ms < 0 then '-' :: TOTPService.natToDecChars (-ms).toNat
  else TOTPService.natToDecChars ms.toNat

/-- JSON round trip of a result into its stored form (`cacheResult` writes
`JSON.stringify(result)`, `getCachedResult` returns `JSON.parse` of it). -/
def serializeResult (r : BreachResult) : StoredBreachResult :=
  ⟨r.breached, r.count, timestampText r.checkedAt, r.passwordHash⟩

/-- Lower-case SHA-1 hex digest of a password (`BreachMonitoringService.sha1`
over `crypto.subtle.digest`). -/
def sha1Hex (password : String) : List Char :=
  bytesToHexLower (sha1Bytes (utf8Encode password))

/-- Cache key built from the first 10 hex characters of the hash
(`'hushkey-breach-' + hash.substring(0, 10)`). -/
def cacheKey (hash : List Char) : List Char :=
  "hushkey-breach-".data ++ hash.take 10

/-- Cache lookup (`getCachedResult`): `JSON.parse` of the stored text,
i.e. a `StoredBreachResult` with a string `checkedAt`. -/
def getCachedResult (store : List Char → Option StoredBreachResult) (hash : List Char) :
    Option StoredBreachResult :=
  store (cacheKey hash)

/-- Splitting a character list at a separator character (JS
`String.prototype.split` with a one-character separator). -/
def splitOnCharAux (sep : Char) : List Char → List Char → List (List Char)
  | [], cur => [cur.reverse]
  | c :: cs, cur =>
    if c = sep then cur.reverse :: splitOnCharAux sep cs []
    else splitOnCharAux sep cs (c :: cur)

/-- Splitting a character list at a separator character. -/
def splitOnChar (sep : Char) (s : List Char) : List (List Char) :=
  splitOnCharAux sep s []

/-- ASCII whitespace recognizer for `trim` (the response bodies only carry
spaces and CR/LF). -/
def isSpaceChar (c : Char) : Bool :=
  c == ' ' || c == '\t' || c == '\n' || c == '\r'

/-- Whitespace trimming at both ends (JS `String.prototype.trim`). -/
def trimChars (s : List Char) : List Char :=
  ((s.dropWhile isSpaceChar).reverse.dropWhile isSpaceChar).reverse

/-- Decimal digit recognizer. -/
def isDecDigit (c : Char) : Bool := '0' ≤ c && c ≤ '9'

/-- Leading-decimal parse (JS `parseInt` on the non-negative decimal counts
of the range response); `none` embeds `NaN`. -/
def parseIntJS (s : List Char) : Option Nat :=
  let t := trimChars s
  let ds := t.takeWhile isDecDigit
  if ds = [] then none
  else some (ds.foldl (fun acc c => acc * 10 + (c.toNat - 48)) 0)

/-- Suffix-matching loop of `checkPassword`: `foundCount` starts at 0; the
first line whose `trim`-med, `':'`-split head equals the hash suffix sets it
to `parseInt` of the second field (`none`, i.e. `NaN`, when that field is
missing or non-numeric) and breaks. -/
def findCount (suffix : List Char) : List (List Char) → Option Nat
  | [] => some 0
  | line :: rest =>
    let parts := splitOnChar ':' (trimChars line)
    if parts.getD 0 [] = suffix then
      match parts.get? 1 with
      | some cnt => parseIntJS cnt
      | none => none
    else findCount suffix rest

/-- Result assembly of `checkPassword` after the range query:
`breached = foundCount > 0` (false for `NaN`), `count = foundCount ||
undefined` (`undefined` for 0 and `NaN`). -/
def mkFetchedResult (fc : Option Nat) (nowMs : Int) (hashUpper : List Char) : BreachResult :=
  { breached := match fc with | some n => decide (0 < n) | none => false
    count := match fc with | some 0 => none | some (n+1) => some (n+1) | none => none
    checkedAt := nowMs
    passwordHash := hashUpper }

/-- Outcome of one `checkPassword` call: the returned result or thrown
error, the URLs fetched, and the cache after `cacheResult`. -/
structure CheckOutcome where
  result : Except BreachCheckError BreachResult
  requests : List (List Char)
  store : List Char → Option StoredBreachResult

/-- Network branch of `checkPassword`: fetch
`HIBP_API_BASE + '/range/' + hashPrefix`, split the body into lines, match
the suffix locally, build the result and cache it under `cacheKey hash`. -/
def fetchBranch (hash hashUpper prefix5 hashSuffix : List Char)
    (store : List Char → Option StoredBreachResult) (nowMs : Int)
    (net : List Char → List Char) : CheckOutcome :=
  let url := HIBP_API_BASE ++ "/range/".data ++ prefix5
  let body := net url
  let lines := splitOnChar '\n' body
  let result := mkFetchedResult (findCount hashSuffix lines) nowMs hashUpper
  ⟨Except.ok result, [url],
    fun k => if k = cacheKey hash then some (serializeResult result) else store k⟩

/-- Breach check (`BreachMonitoringService.checkPassword`): SHA-1 the
password, upper-case the hex, split after 5 characters; on a cache hit the
freshness test `Date.now() - cached.checkedAt.getTime() < CACHE_DURATION`
evaluates `.getTime()` on the JSON-revived string `checkedAt` and throws a
`TypeError` before any comparison or fetch, which the outer handler
rethrows as an `Error` — so every cached entry, of any age, makes the call
fail; on a cache miss, query the range endpoint with the 5-character
prefix only and match the suffix locally. -/
def checkPassword (password : String) (store : List Char → Option StoredBreachResult)
    (nowMs : Int) (net : List Char → List Char) : CheckOutcome :=
  let hash := sha1Hex password
  let hashUpper := upperChars hash
  let prefix5 := hashUpper.take 5
  let hashSuffix := hashUpper.drop 5
  match getCachedResult store hash with
  | some _ => ⟨Except.error BreachCheckError.checkFailed, [], store⟩
  | none => fetchBranch hash hashUpper prefix5 hashSuffix store nowMs net

end BreachMonitoringService

/-! ## Base64 codec (`toBase64`/`fromBase64` in src/src/services/pwa.ts)

`toBase64 = btoa(String.fromCharCode(...data))` is RFC 4648 base64 with
padding over the byte values; `fromBase64` runs `atob`, which strips ASCII
whitespace, strips the padding, and fails (`InvalidCharacterError`,
embedded as `none`) on any other character outside the alphabet or on a
leftover length of 1. -/

/-- RFC 4648 base64 alphabet. -/
def base64Alphabet : List Char :=
  "ABCDEFGHIJKLMNOPQRSTUVWXYZabcdefghijklmnopqrstuvwxyz0123456789+/".data

/-- Alphabet character of a sextet. -/
def b64Char (n : Nat) : Char := base64Alphabet.getD n 'A'

/-- Alphabet index of a character, `none` outside the alphabet. -/
def base64CharIndex (c : Char) : Option Nat :=
  if h : base64Alphabet.indexOf c < base64Alphabet.length then
    some (base64Alphabet.indexOf c)
  else none

/-- Base64 encoding in 3-byte groups with `=` padding (the `btoa` model):
each group of three bytes becomes four sextets; a final group of one or two
bytes becomes two or three sextets plus padding. -/
def base64EncodeChunks : List Nat → List Char
  | [] => []
  | [b1] => [b64Char (b1 / 4), b64Char (b1 % 4 * 16), '=', '=']
  | [b1, b2] => [b64Char (b1 / 4), b64Char (b1 % 4 * 16 + b2 / 16), b64Char (b2 % 16 * 4), '=']
  | b1 :: b2 :: b3 :: rest =>
    b64Char (b1 / 4) :: b64Char (b1 % 4 * 16 + b2 / 16) :: b64Char (b2 % 16 * 4 + b3 / 64) ::
      b64Char (b3 % 64) :: base64EncodeChunks rest

/-- Base64 encoding of a byte list (`EncryptionService.toBase64`). -/
def toBase64 (data : List Nat) : List Char := base64EncodeChunks data

/-- Base64 decoding of an unpadded character list in 4-character groups; a
leftover single character is an error, leftovers of two or three characters
decode to one or two bytes. -/
def base64DecodeChunks : List Char → Option (List Nat)
  | [] => some []
  | [c1, c2] => do
    let n1 ← base64CharIndex c1
    let n2 ← base64CharIndex c2
    some [n1 * 4 + n2 / 16]
  | [c1, c2, c3] => do
    let n1 ← base64CharIndex c1
    let n2 ← base64CharIndex c2
    let n3 ← base64CharIndex c3
    some [n1 * 4 + n2 / 16, n2 % 16 * 16 + n3 / 4]
  | [_] => none
  | c1 :: c2 :: c3 :: c4 :: rest => do
    let n1 ← base64CharIndex c1
    let n2 ← base64CharIndex c2
    let n3 ← base64CharIndex c3
    let n4 ← base64CharIndex c4
    let tail ← base64DecodeChunks rest
    some ((n1 * 4 + n2 / 16) :: (n2 % 16 * 16 + n3 / 4) :: (n3 % 4 * 64 + n4) :: tail)

/-- Whitespace stripping of `atob`. -/
def stripWs (s : List Char) : List Char :=
  s.filter (fun c => !(BreachMonitoringService.isSpaceChar c))

/-- Padding stripping of `atob`: when the length is a multiple of four,
remove up to two trailing `=` characters. -/
def dropEqPad (t : List Char) : List Char :=
  if t.length % 4 ≠ 0 then t
  else if t.reverse.take 2 = ['=', '='] then t.dropLast.dropLast
  else if t.reverse.take 1 = ['='] then t.dropLast
  else t

/-- Base64 decoding of a string (`EncryptionService.fromBase64` via `atob`);
`none` embeds the thrown `InvalidCharacterError`. -/
def fromBase64 (s : List Char) : Option (List Nat) :=
  base64DecodeChunks (dropEqPad (stripWs s))

/-- Alphabet part of `base64EncodeChunks` (the encoding without its `=`
padding), used to analyse `atob`'s padding stripping. -/
def base64Body : List Nat → List Char
  | [] => []
  | [b1] => [b64Char (b1 / 4), b64Char (b1 % 4 * 16)]
  | [b1, b2] => [b64Char (b1 / 4), b64Char (b1 % 4 * 16 + b2 / 16), b64Char (b2 % 16 * 4)]
  | b1 :: b2 :: b3 :: rest =>
    b64Char (b1 / 4) :: b64Char (b1 % 4 * 16 + b2 / 16) :: b64Char (b2 % 16 * 4 + b3 / 64) ::
      b64Char (b3 % 64) :: base64Body rest

/-- Number of `=` padding characters `base64EncodeChunks` appends. -/
def base64PadLen : List Nat → Nat
  | [] => 0
  | [_] => 2
  | [_, _] => 1
  | _ :: _ :: _ :: rest => base64PadLen rest

/-! ## EncryptionService envelope (src/src/services/pwa.ts)

Both `EncryptionService` variants build the same envelope around an AEAD
platform primitive: a fresh random nonce (12 bytes for the Web Crypto
AES-256-GCM variant, 24 for the libsodium secretbox variant) is prepended
to the primitive's ciphertext and the whole blob is base64-encoded;
`decrypt` decodes, slices the fixed nonce length off, and hands nonce and
remainder to the primitive's authenticated open.  The primitive itself
(`crypto.subtle.encrypt/decrypt`, `crypto_secretbox_easy/open_easy`,
together with the `TextEncoder`/`TextDecoder` conversions) is modelled from
the spec as an abstract AEAD: `sealFn` produces the ciphertext-plus-tag
bytes, `openFn` returns the plaintext or fails (`none` embeds the thrown
`DecryptionError`).  The fresh random nonce of `generateNonce` is an
explicit argument of `encrypt`. -/

/-- Modelled from the spec: an AEAD platform primitive — `sealFn key nonce
plaintext` gives the ciphertext-plus-tag bytes, `openFn key nonce
ciphertext` authenticates and decrypts. -/
structure AEAD where
  sealFn : List Nat → List Nat → String → List Nat
  openFn : List Nat → List Nat → List Nat → Option String

namespace EncryptionService

/-- Nonce length of the Web Crypto AES-256-GCM variant (`generateNonce`
returns 12 bytes; `decrypt` slices 12). -/
def NONCE_LEN_GCM : Nat := 12

/-- Nonce length of the libsodium secretbox variant (`generateNonce`
returns 24 bytes; `decrypt` slices 24). -/
def NONCE_LEN_SECRETBOX : Nat := 24

/-- Envelope encryption (`EncryptionService.encrypt` of either variant):
base64 of nonce concatenated with the AEAD ciphertext. -/
def encrypt (A : AEAD) (data : String) (key nonce : List Nat) : List Char :=
  toBase64 (nonce ++ A.sealFn key nonce data)

/-- Envelope decryption (`EncryptionService.decrypt` of either variant):
base64-decode, slice the algorithm's fixed nonce length off, and open. -/
def decrypt (A : AEAD) (nonceLen : Nat) (encryptedData : List Char) (key : List Nat) :
    Option String :=
  match fromBase64 encryptedData with
  | none => none
  | some cipherBytes => A.openFn key (cipherBytes.take nonceLen) (cipherBytes.drop nonceLen)

end EncryptionService

/-! ## Key derivation (src/src/services/pwa.ts)

The PBKDF2 profile (`deriveMasterKey` of the Web Crypto variant) calls
`crypto.subtle.deriveBits({name: 'PBKDF2', salt, iterations: 600000,
hash: 'SHA-256'}, keyFromUtf8Password, 256)`; the primitive is implemented
here from RFC 8018 over SHA-256 (FIPS 180-4).  The Argon2id profile
(`deriveMasterKey` of the libsodium variant) calls `crypto_pwhash`, which
is modelled from the spec below. -/

/-- Right rotation of a 32-bit word by `n` places (`0 < n < 32`), as exact
arithmetic. -/
def rotr32 (x n : Nat) : Nat :=
  x / 2 ^ n + x % 2 ^ n * 2 ^ (32 - n)

/-- SHA-256 small sigma 0. -/
def sha256s0 (x : Nat) : Nat := rotr32 x 7 ^^^ rotr32 x 18 ^^^ x / 8

/-- SHA-256 small sigma 1. -/
def sha256s1 (x : Nat) : Nat := rotr32 x 17 ^^^ rotr32 x 19 ^^^ x / 1024

/-- SHA-256 big Sigma 0. -/
def sha256S0 (x : Nat) : Nat := rotr32 x 2 ^^^ rotr32 x 13 ^^^ rotr32 x 22

/-- SHA-256 big Sigma 1. -/
def sha256S1 (x : Nat) : Nat := rotr32 x 6 ^^^ rotr32 x 11 ^^^ rotr32 x 25

/-- SHA-256 round constants. -/
def sha256K : List Nat :=
  [1116352408, 1899447441, 3049323471, 3921009573, 961987163, 1508970993,
   2453635748, 2870763221, 3624381080, 310598401, 607225278, 1426881987,
   1925078388, 2162078206, 2614888103, 3248222580, 3835390401, 4022224774,
   264347078, 604807628, 770255983, 1249150122, 1555081692, 1996064986,
   2554220882, 2821834349, 2952996808, 3210313671, 3336571891, 3584528711,
   113926993, 338241895, 666307205, 773529912, 1294757372, 1396182291,
   1695183700, 1986661051, 2177026350, 2456956037, 2730485921, 2820302411,
   3259730800, 3345764771, 3516065817, 3600352804, 4094571909, 275423344,
   430227734, 506948616, 659060556, 883997877, 958139571, 1322822218,
   1537002063, 1747873779, 1955562222, 2024104815, 2227730452, 2361852424,
   2428436474, 2756734187, 3204031479, 3329325298]

/-- SHA-256 message-schedule extension: starting from the 16 block words
(newest first), prepends `fuel` further words
`s1 (w2) + w7 + s0 (w15) + w16 mod 2^32`. -/
def sha256Schedule : Nat → List Nat → List Nat
  | 0, acc => acc
  | fuel+1, acc =>
    let x := w32 (sha256s1 (acc.getD 1 0) + acc.getD 6 0 + sha256s0 (acc.getD 14 0) + acc.getD 15 0)
    sha256Schedule fuel (x :: acc)

/-- SHA-256 state: eight 32-bit words. -/
structure Sha256State where
  a : Nat
  b : Nat
  c : Nat
  d : Nat
  e : Nat
  f : Nat
  g : Nat
  h : Nat
deriving Repr, DecidableEq

/-- SHA-256 compression rounds over the zipped schedule and constants. -/
def sha256Rounds : List (Nat × Nat) → Sha256State → Sha256State
  | [], st => st
  | (wt, kt) :: ws, st =>
    let ch := (st.e &&& st.f) ^^^ ((4294967295 - st.e) &&& st.g)
    let maj := (st.a &&& st.b) ^^^ (st.a &&& st.c) ^^^ (st.b &&& st.c)
    let t1 := w32 (st.h + sha256S1 st.e + ch + kt + wt)
    let t2 := w32 (sha256S0 st.a + maj)
    sha256Rounds ws ⟨w32 (t1 + t2), st.a, st.b, st.c, w32 (st.d + t1), st.e, st.f, st.g⟩

/-- SHA-256 compression of one 64-byte block. -/
def sha256Compress (h : Sha256State) (block : List Nat) : Sha256State :=
  let ws0 := (chunks 4 block).map bytesToWordBE
  let ws := (sha256Schedule 48 ws0.reverse).reverse
  let st := sha256Rounds (ws.zip sha256K) h
  ⟨w32 (h.a + st.a), w32 (h.b + st.b), w32 (h.c + st.c), w32 (h.d + st.d),
   w32 (h.e + st.e), w32 (h.f + st.f), w32 (h.g + st.g), w32 (h.h + st.h)⟩

/-- SHA-256 initial chaining value. -/
def sha256Init : Sha256State :=
  ⟨1779033703, 3144134277, 1013904242, 2773480762,
   1359893119, 2600822924, 528734635, 1541459225⟩

/-- Digest bytes of a final SHA-256 state. -/
def sha256StateBytes (st : Sha256State) : List Nat :=
  wordToBytesBE st.a ++ wordToBytesBE st.b ++ wordToBytesBE st.c ++ wordToBytesBE st.d ++
    wordToBytesBE st.e ++ wordToBytesBE st.f ++ wordToBytesBE st.g ++ wordToBytesBE st.h

/-- Modelled from the spec: SHA-256 of a byte string (FIPS 180-4), the
`crypto.subtle` hash primitive behind the PBKDF2 profile. -/
def sha256Bytes (msg : List Nat) : List Nat :=
  sha256StateBytes ((chunks 64 (shaPad msg)).foldl sha256Compress sha256Init)

/-- HMAC-SHA256 (RFC 2104). -/
def hmacSHA256 (key msg : List Nat) : List Nat := hmacGeneric sha256Bytes key msg

/-- Byte-wise xor of two byte strings (RFC 8018 block accumulation). -/
def xorBytes (a b : List Nat) : List Nat := a.zipWith (fun x y => x ^^^ y) b

/-- Iteration loop of one PBKDF2 block: `j` further HMAC applications,
xor-accumulated. -/
def pbkdf2Iter (pw : List Nat) : Nat → List Nat → List Nat → List Nat
  | 0, _, acc => acc
  | j+1, u, acc =>
    let u1 := hmacSHA256 pw u
    pbkdf2Iter pw j u1 (xorBytes acc u1)

/-- Modelled from the spec: block `F(pw, salt, c, i)` of PBKDF2-HMAC-SHA256
(RFC 8018): `U_1 = HMAC(pw, salt ‖ INT_BE(i))`, `U_{k+1} = HMAC(pw, U_k)`,
xored over `c` rounds. -/
def pbkdf2F (pw salt : List Nat) (c i : Nat) : List Nat :=
  let u1 := hmacSHA256 pw (salt ++ wordToBytesBE i)
  pbkdf2Iter pw (c - 1) u1 u1

/-- Modelled from the spec: PBKDF2-HMAC-SHA256 (RFC 8018), the
`crypto.subtle.deriveBits` PBKDF2 primitive: concatenate blocks
`F(pw, salt, c, 1), F(pw, salt, c, 2), …` and truncate to `dkLen` bytes. -/
def pbkdf2HmacSha256 (pw salt : List Nat) (c dkLen : Nat) : List Nat :=
  (((List.range ((dkLen + 31) / 32)).map (fun i => pbkdf2F pw salt c (i + 1))).flatten).take dkLen

namespace EncryptionService

/-- PBKDF2-profile master-key derivation (`deriveMasterKey` of the Web
Crypto `EncryptionService`): PBKDF2-HMAC-SHA256, 600000 iterations, over
the UTF-8 password and the given salt, producing 256 bits. -/
def deriveMasterKey (password : String) (salt : List Nat) : List Nat :=
  pbkdf2HmacSha256 (utf8Encode password) salt 600000 32

/-- Error taxonomy entry raised on a bad salt (spec §4.1/§7). -/
inductive KeyDerivationError where
  | invalidSaltLength
deriving Repr, DecidableEq

/-- Salt length required by libsodium `crypto_pwhash`
(`crypto_pwhash_SALTBYTES`). -/
def SODIUM_SALTBYTES : Nat := 16

/-- Modelled from the spec: the Argon2id profile (`deriveMasterKey` of the
libsodium `EncryptionService`), which passes the salt straight to
`crypto_pwhash`; the primitive rejects any salt whose length differs from
`crypto_pwhash_SALTBYTES = 16` and otherwise derives the 32-byte Argon2id
key, abstracted here as `argon`. -/
def deriveMasterKeyArgon (argon : String → List Nat → List Nat) (password : String)
    (salt : List Nat) : Except KeyDerivationError (List Nat) :=
  if salt.length = SODIUM_SALTBYTES then Except.ok (argon password salt)
  else Except.error KeyDerivationError.invalidSaltLength

end EncryptionService

namespace TOTPService

/-- Sextet-level image of `base32DecodeCore` used by the round-trip proofs:
the same 5-bit accumulation, taking the alphabet indices directly. -/
def base32DecodeSex : List Nat → Nat → Nat → List Nat
  | [], _, _ => []
  | s :: ss, value, bits =>
    let value1 := value * 32 + s
    let bits1 := bits + 5
    if 8 ≤ bits1 then
      (value1 / 2 ^ (bits1 - 8) % 256) :: base32DecodeSex ss (value1 % 2 ^ (bits1 - 8)) (bits1 - 8)
    else base32DecodeSex ss value1 bits1

end TOTPService

/-- FIPS 180-4 test vector: SHA-1 of "abc". -/
theorem sha1_abc_vector :
    bytesToHexLower (sha1Bytes (utf8Encode "abc")) =
      "a9993e364706816aba3e25717850c26c9cd0d89d".data := by decide

/-- RFC 2202 test case 2: HMAC-SHA1 with key "Jefe" and data
"what do ya want for nothing?". -/
theorem hmac_sha1_rfc2202_vector :
    bytesToHexLower (hmacSHA1 (utf8Encode "Jefe") (utf8Encode "what do ya want for nothing?")) =
      "effcdf6ae5eb2fa2d27416d5f184df9c259a7c79".data := by decide

/-- RFC 4226 appendix D vector: HOTP of the ASCII secret
"12345678901234567890" (base32 `GEZDGNBVGY3TQOJQGEZDGNBVGY3TQOJQ`) at
counter 0 is 755224. -/
theorem hotp_rfc4226_vector_0 :
    TOTPService.generateHOTP "GEZDGNBVGY3TQOJQGEZDGNBVGY3TQOJQ".data 0 6 = "755224".data := by decide

/-- RFC 6238 vector: TOTP of the same secret at Unix time 59 with
`timeStep = 30`, `digits = 8` is 94287082. -/
theorem totp_rfc6238_vector_59 :
    TOTPService.generateTOTP "GEZDGNBVGY3TQOJQGEZDGNBVGY3TQOJQ".data 30 8 59 = "94287082".data := by decide

/-- Digest of a SHA-1 state is 20 bytes long. -/
theorem sha1StateBytes_length (st : Sha1State) : (sha1StateBytes st).length = 20 := by
  simp [sha1StateBytes, wordToBytesBE]

/-- Every byte of a SHA-1 state digest is below 256. -/
theorem sha1StateBytes_lt (st : Sha1State) : ∀ b ∈ sha1StateBytes st, b < 256 := by
  intro b hb
  simp [sha1StateBytes, wordToBytesBE] at hb
  rcases hb with h | h | h | h | h | h | h | h | h | h | h | h | h | h | h | h | h | h | h | h <;>
    omega

/-- SHA-1 digests are 20 bytes long. -/
theorem sha1Bytes_length (msg : List Nat) : (sha1Bytes msg).length = 20 := by
  simp [sha1Bytes, sha1StateBytes_length]

/-- Every byte of a SHA-1 digest is below 256. -/
theorem sha1Bytes_lt (msg : List Nat) : ∀ b ∈ sha1Bytes msg, b < 256 := by
  simp only [sha1Bytes]
  exact sha1StateBytes_lt _

/-- Indexing with default 0 into a list of bytes below 256 stays below 256. -/
theorem getD_lt_256 (l : List Nat) (h : ∀ b ∈ l, b < 256) (i : Nat) : l.getD i 0 < 256 := by
  induction l generalizing i with
  | nil => simp [List.getD]
  | cons x xs ih =>
    cases i with
    | zero => exact h x (by simp)
    | succ j =>
      simpa [List.getD] using ih (fun b hb => h b (by simp [hb])) j

/-- Dynamic-truncation arithmetic: masking the top byte to 7 bits and summing
the four byte positions equals packing the four bytes and reducing modulo
2^31, whenever the four values are bytes. -/
theorem truncate_arith (a b c d : Nat) (ha : a < 256) (hb : b < 256) (hc : c < 256)
    (hd : d < 256) :
    a % 128 * 16777216 + b % 256 * 65536 + c % 256 * 256 + d % 256 =
      (a * 16777216 + b * 65536 + c * 256 + d) % 2147483648 := by
  omega

/-- Truncation in `generateHOTP` agrees with the RFC 4226 masked packing on
byte lists. -/
theorem truncateHmac_eq (h : List Nat) (hlt : ∀ b ∈ h, b < 256) :
    TOTPService.truncateHmac h =
      (h.getD (h.getD (h.length - 1) 0 % 16) 0 * 16777216 +
        h.getD (h.getD (h.length - 1) 0 % 16 + 1) 0 * 65536 +
        h.getD (h.getD (h.length - 1) 0 % 16 + 2) 0 * 256 +
        h.getD (h.getD (h.length - 1) 0 % 16 + 3) 0) % 2147483648 := by
  simp only [TOTPService.truncateHmac]
  exact truncate_arith _ _ _ _ (getD_lt_256 h hlt _) (getD_lt_256 h hlt _)
    (getD_lt_256 h hlt _) (getD_lt_256 h hlt _)

/-- Expansion of `longToBytes` as the 8 big-endian base-256 digits. -/
theorem longToBytes_eq (v : Nat) :
    TOTPService.longToBytes v =
      [v / 72057594037927936 % 256, v / 281474976710656 % 256,
       v / 1099511627776 % 256, v / 4294967296 % 256,
       v / 16777216 % 256, v / 65536 % 256, v / 256 % 256, v % 256] := by
  simp only [TOTPService.longToBytes, TOTPService.longToBytesAux, Nat.div_div_eq_div_mul]
  norm_num

/-- Length of decimal rendering is bounded by the digit count when the value
fits. -/
theorem natToDecAux_length (fuel n d : Nat) (hf : n < fuel) (hd : 1 ≤ d)
    (hn : n < 10 ^ d) : (TOTPService.natToDecAux fuel n).length ≤ d := by
  induction fuel generalizing n d with
  | zero => omega
  | succ f ih =>
    simp only [TOTPService.natToDecAux]
    by_cases h10 : n < 10
    · simp [h10]; omega
    · simp only [h10, if_false, List.length_append, List.length_cons, List.length_nil]
      have hd2 : 2 ≤ d := by
        by_contra hcon
        have : d = 1 := by omega
        subst this
        simp at hn
        omega
      have := ih (n / 10) (d - 1) (by omega) (by omega)
        (by
          have : 10 ^ d = 10 ^ (d - 1) * 10 := by
            conv_lhs => rw [show d = (d - 1) + 1 by omega]
            ring
          omega)
      omega

/-- HMAC-SHA1 digests are 20 bytes long. -/
theorem hmacSHA1_length (key msg : List Nat) : (hmacSHA1 key msg).length = 20 := by
  simp only [hmacSHA1, hmacGeneric]
  exact sha1Bytes_length _

/-- Every byte of an HMAC-SHA1 digest is below 256. -/
theorem hmacSHA1_lt (key msg : List Nat) : ∀ b ∈ hmacSHA1 key msg, b < 256 := by
  simp only [hmacSHA1, hmacGeneric]
  exact sha1Bytes_lt _

/-- Length of the padded decimal rendering of a value below `10^digits` is
exactly `digits`. -/
theorem hotpPad_length (code digits : Nat) (hd : 1 ≤ digits) :
    (TOTPService.padStartChars (TOTPService.natToDecChars (code % 10 ^ digits)) digits '0').length
      = digits := by
  have hlt : code % 10 ^ digits < 10 ^ digits :=
    Nat.mod_lt _ (Nat.pos_pow_of_pos _ (by norm_num))
  have hlen := natToDecAux_length (code % 10 ^ digits + 1) (code % 10 ^ digits) digits
    (by omega) hd hlt
  simp only [TOTPService.padStartChars, TOTPService.natToDecChars] at *
  simp [List.length_replicate]
  omega

/-- C5: for every base32 secret, every counter in the RFC 4226 uint64 range
and every digit count of at least one, `generateHOTP(secret, counter, d)`
equals the RFC 4226 value over the decoded secret bytes — HMAC-SHA1 of the
counter as 8 big-endian bytes, dynamic truncation with the offset taken from
the low nibble of the last HMAC byte and the 4 bytes there masked to 31
bits, reduced modulo `10^d` — and the result has exactly `d` characters. -/
theorem hotp_eq_rfc4226 (s : List Char) (counter digits : Nat)
    (hc : counter < 18446744073709551616) (hd : 1 ≤ digits) :
    TOTPService.generateHOTP s counter digits =
      rfc4226HOTP (TOTPService.base32ToBytes s) counter digits ∧
    (TOTPService.generateHOTP s counter digits).length = digits := by
  constructor
  · simp only [TOTPService.generateHOTP, rfc4226HOTP, longToBytes_eq]
    rw [truncateHmac_eq _ (hmacSHA1_lt _ _)]
  · simp only [TOTPService.generateHOTP]
    exact hotpPad_length _ _ hd

/-- Witness for `hotp_eq_rfc4226` at the RFC 4226 test secret, counter 3 and
six digits. -/
theorem hotp_eq_rfc4226_witness :
    TOTPService.generateHOTP "GEZDGNBVGY3TQOJQGEZDGNBVGY3TQOJQ".data 3 6 =
      rfc4226HOTP (TOTPService.base32ToBytes "GEZDGNBVGY3TQOJQGEZDGNBVGY3TQOJQ".data) 3 6 ∧
    (TOTPService.generateHOTP "GEZDGNBVGY3TQOJQGEZDGNBVGY3TQOJQ".data 3 6).length = 6 :=
  hotp_eq_rfc4226 "GEZDGNBVGY3TQOJQGEZDGNBVGY3TQOJQ".data 3 6 (by norm_num) (by norm_num)

/-- C4: evaluation of the `validateTOTP` window bug at a concrete input.
The code `287082` is the TOTP of the RFC 4226 test secret at Unix time 59
(counter 1); at Unix time 89 (counter 2) that code is exactly one time step
in the past, yet `validateTOTP` with `window = 1` rejects it, because every
loop iteration regenerates the code for the *current* counter instead of the
offset counter `checkWindow`; the specified per-offset validation accepts
it. -/
theorem validateTOTP_window_bug :
    TOTPService.generateTOTP "GEZDGNBVGY3TQOJQGEZDGNBVGY3TQOJQ".data 30 6 59 = "287082".data ∧
    TOTPService.validateTOTP "GEZDGNBVGY3TQOJQGEZDGNBVGY3TQOJQ".data "287082".data 30 1 89
      = false ∧
    TOTPService.specValidateTOTP "GEZDGNBVGY3TQOJQGEZDGNBVGY3TQOJQ".data "287082".data 30 1 89
      = true := by
  refine ⟨by decide, by decide, by decide⟩

/-- FIPS 180-4 test vector: SHA-256 of "abc". -/
theorem sha256_abc_vector :
    bytesToHexLower (sha256Bytes (utf8Encode "abc")) =
      "ba7816bf8f01cfea414140de5dae2223b00361a396177a9cb410ff61f20015ad".data := by decide

/-- RFC 4231 test case 2: HMAC-SHA256 with key "Jefe". -/
theorem hmac_sha256_rfc4231_vector :
    bytesToHexLower (hmacSHA256 (utf8Encode "Jefe") (utf8Encode "what do ya want for nothing?")) =
      "5bdcc146bf60754e6a042426089575c75a003f089d2739839dec58b964ec3843".data := by decide

/-- Digest of a SHA-256 state is 32 bytes long. -/
theorem sha256StateBytes_length (st : Sha256State) : (sha256StateBytes st).length = 32 := by
  simp [sha256StateBytes, wordToBytesBE]

/-- SHA-256 digests are 32 bytes long. -/
theorem sha256Bytes_length (msg : List Nat) : (sha256Bytes msg).length = 32 := by
  simp [sha256Bytes, sha256StateBytes_length]

/-- HMAC-SHA256 digests are 32 bytes long. -/
theorem hmacSHA256_length (key msg : List Nat) : (hmacSHA256 key msg).length = 32 := by
  simp only [hmacSHA256, hmacGeneric]
  exact sha256Bytes_length _

/-- PBKDF2 iteration preserves the 32-byte accumulator length. -/
theorem pbkdf2Iter_length (pw : List Nat) (j : Nat) (u acc : List Nat)
    (h : acc.length = 32) : (pbkdf2Iter pw j u acc).length = 32 := by
  induction j generalizing u acc with
  | zero => simpa [pbkdf2Iter] using h
  | succ k ih =>
    simp only [pbkdf2Iter]
    exact ih _ _ (by simp [xorBytes, h, hmacSHA256_length])

/-- One PBKDF2-HMAC-SHA256 block is 32 bytes long. -/
theorem pbkdf2F_length (pw salt : List Nat) (c i : Nat) : (pbkdf2F pw salt c i).length = 32 := by
  simp only [pbkdf2F]
  exact pbkdf2Iter_length _ _ _ _ (hmacSHA256_length _ _)

/-- PBKDF2-HMAC-SHA256 with a 32-byte output request returns 32 bytes. -/
theorem pbkdf2_dk32_length (pw salt : List Nat) (c : Nat) :
    (pbkdf2HmacSha256 pw salt c 32).length = 32 := by
  have h1 : List.range ((32 + 31) / 32) = [0] := by decide
  simp [pbkdf2HmacSha256, h1, pbkdf2F_length]

/-- C6: the PBKDF2-profile `deriveMasterKey(password, salt)` is
PBKDF2-HMAC-SHA256 with 600000 iterations over the UTF-8 password and the
given salt, returns exactly 32 bytes, and two calls on identical inputs
return identical bytes (the embedding is a pure function of its inputs). -/
theorem deriveMasterKey_pbkdf2_spec (password : String) (salt : List Nat)
    (p2 : String) (s2 : List Nat) (hp : p2 = password) (hs : s2 = salt) :
    EncryptionService.deriveMasterKey password salt =
      pbkdf2HmacSha256 (utf8Encode password) salt 600000 32 ∧
    (EncryptionService.deriveMasterKey password salt).length = 32 ∧
    EncryptionService.deriveMasterKey p2 s2 = EncryptionService.deriveMasterKey password salt :=
  ⟨rfl, pbkdf2_dk32_length _ _ _, by rw [hp, hs]⟩

/-- Witness for `deriveMasterKey_pbkdf2_spec` at a concrete password and
an empty salt. -/
theorem deriveMasterKey_pbkdf2_spec_witness :
    EncryptionService.deriveMasterKey "pw" [] =
      pbkdf2HmacSha256 (utf8Encode "pw") [] 600000 32 ∧
    (EncryptionService.deriveMasterKey "pw" []).length = 32 ∧
    EncryptionService.deriveMasterKey "pw" [] = EncryptionService.deriveMasterKey "pw" [] :=
  deriveMasterKey_pbkdf2_spec "pw" [] "pw" [] rfl rfl

/-- C7: the Argon2id-profile `deriveMasterKey` signals a
`KeyDerivationError` on every salt whose length is invalid for the profile
(`crypto_pwhash_SALTBYTES = 16`), and whenever it succeeds the result is
the Argon2id derivation itself — never a silent fallback to another
profile. -/
theorem deriveMasterKeyArgon_salt_check (argon : String → List Nat → List Nat)
    (password : String) (salt : List Nat) :
    (salt.length ≠ 16 →
      EncryptionService.deriveMasterKeyArgon argon password salt =
        Except.error EncryptionService.KeyDerivationError.invalidSaltLength) ∧
    (∀ result, EncryptionService.deriveMasterKeyArgon argon password salt = Except.ok result →
      result = argon password salt) := by
  constructor
  · intro h
    simp [EncryptionService.deriveMasterKeyArgon, EncryptionService.SODIUM_SALTBYTES, h]
  · intro result h
    by_cases hlen : salt.length = EncryptionService.SODIUM_SALTBYTES
    · simpa [EncryptionService.deriveMasterKeyArgon, hlen] using h.symm
    · simp [EncryptionService.deriveMasterKeyArgon, hlen] at h

/-- Witness for `deriveMasterKeyArgon_salt_check` with an empty salt. -/
theorem deriveMasterKeyArgon_salt_check_witness :
    EncryptionService.deriveMasterKeyArgon (fun _ _ => List.replicate 32 0) "pw" [] =
      Except.error EncryptionService.KeyDerivationError.invalidSaltLength :=
  (deriveMasterKeyArgon_salt_check (fun _ _ => List.replicate 32 0) "pw" []).1 (by decide)

/-- C3: `checkPassword` performs at most one network request, and every
request URL is exactly the range endpoint with the first five characters of
the upper-cased SHA-1 hex digest of the password — at most five hash
characters cross the network; the password, full digest and suffix never
do. -/
theorem checkPassword_leak_bound (password : String)
    (store : List Char → Option BreachMonitoringService.StoredBreachResult)
    (nowMs : Int) (net : List Char → List Char) :
    (BreachMonitoringService.checkPassword password store nowMs net).requests.length ≤ 1 ∧
    ∀ r ∈ (BreachMonitoringService.checkPassword password store nowMs net).requests,
      r = BreachMonitoringService.HIBP_API_BASE ++ "/range/".data ++
        (upperChars (BreachMonitoringService.sha1Hex password)).take 5 ∧
      ((upperChars (BreachMonitoringService.sha1Hex password)).take 5).length ≤ 5 := by
  have htake : ((upperChars (BreachMonitoringService.sha1Hex password)).take 5).length ≤ 5 := by
    simp [List.length_take]
  rcases hc : BreachMonitoringService.getCachedResult store
      (BreachMonitoringService.sha1Hex password) with _ | cached
  · simp [BreachMonitoringService.checkPassword, BreachMonitoringService.fetchBranch, hc, htake]
  · simp [BreachMonitoringService.checkPassword, hc]

/-- C8: evaluation of the cache path at a concrete failing input.  The
store holds the entry a prior `checkPassword "pw"` call cached at
timestamp 0 (its `checkedAt` JSON-revived as the string "0").  At
`nowMs = 1` the entry is 1 ms old — far fresher than 24 h — and the claim
requires `checkPassword` to return it without any network request; at
`nowMs = 90000000` (25 h) the entry is stale and the claim requires a
fresh range request.  In both cases the call instead throws: the
freshness test calls `.getTime()` on the revived string and the outer
handler rethrows, so no cached result is ever returned and no request is
ever made on a cache hit. -/
theorem checkPassword_cache_throws :
    (BreachMonitoringService.checkPassword "pw"
      (fun k => if k = BreachMonitoringService.cacheKey
          (BreachMonitoringService.sha1Hex "pw") then
        some ⟨false, none, "0".data, []⟩ else none)
      1 (fun _ => [])).result =
        Except.error BreachMonitoringService.BreachCheckError.checkFailed ∧
    (BreachMonitoringService.checkPassword "pw"
      (fun k => if k = BreachMonitoringService.cacheKey
          (BreachMonitoringService.sha1Hex "pw") then
        some ⟨false, none, "0".data, []⟩ else none)
      1 (fun _ => [])).requests = [] ∧
    (BreachMonitoringService.checkPassword "pw"
      (fun k => if k = BreachMonitoringService.cacheKey
          (BreachMonitoringService.sha1Hex "pw") then
        some ⟨false, none, "0".data, []⟩ else none)
      90000000 (fun _ => [])).result =
        Except.error BreachMonitoringService.BreachCheckError.checkFailed ∧
    (BreachMonitoringService.checkPassword "pw"
      (fun k => if k = BreachMonitoringService.cacheKey
          (BreachMonitoringService.sha1Hex "pw") then
        some ⟨false, none, "0".data, []⟩ else none)
      90000000 (fun _ => [])).requests = [] :=
  ⟨rfl, rfl, rfl, rfl⟩

/-- Suffix matching returns the initial count 0 when no line's head field
equals the suffix. -/
theorem findCount_of_no_match (suffix : List Char) (lines : List (List Char))
    (h : ∀ line ∈ lines,
      (BreachMonitoringService.splitOnChar ':'
        (BreachMonitoringService.trimChars line)).getD 0 [] ≠ suffix) :
    BreachMonitoringService.findCount suffix lines = some 0 := by
  induction lines with
  | nil => rfl
  | cons line rest ih =>
    have hne := h line (by simp)
    simp only [BreachMonitoringService.findCount, if_neg hne]
    exact ih (fun l hl => h l (by simp [hl]))

/-- C9: for the password "password123", the upper-cased SHA-1 digest is
CBFDAC6008F9CAB4083784CBD1874F76618D2A97 (prefix CBFDA, suffix
C6008F9CAB4083784CBD1874F76618D2A97); with an empty cache and a range
response containing that suffix with count 23597311, `checkPassword`
returns breached with count 23597311, and with any response body none of
whose lines carries that suffix it returns not breached. -/
theorem checkPassword_password123 :
    upperChars (BreachMonitoringService.sha1Hex "password123") =
      "CBFDAC6008F9CAB4083784CBD1874F76618D2A97".data ∧
    (BreachMonitoringService.checkPassword "password123" (fun _ => none) 0
        (fun _ => ("0018A45C4D1DEF81644B54AB7F969B88D65:4\r\nC6008F9CAB4083784CBD1874F76618D2A97:23597311\r\n011053FD0102E94D6AE2F8B83D76FAF94F6:1").data)).result =
      Except.ok ⟨true, some 23597311, 0,
        "CBFDAC6008F9CAB4083784CBD1874F76618D2A97".data⟩ ∧
    ∀ body : List Char,
      (∀ line ∈ BreachMonitoringService.splitOnChar '\n' body,
        (BreachMonitoringService.splitOnChar ':'
          (BreachMonitoringService.trimChars line)).getD 0 [] ≠
          "C6008F9CAB4083784CBD1874F76618D2A97".data) →
      (BreachMonitoringService.checkPassword "password123" (fun _ => none) 0
        (fun _ => body)).result =
        Except.ok ⟨false, none, 0,
          "CBFDAC6008F9CAB4083784CBD1874F76618D2A97".data⟩ := by
  refine ⟨by decide, by rfl, ?_⟩
  intro body hbody
  have hsfx : (upperChars (BreachMonitoringService.sha1Hex "password123")).drop 5 =
      "C6008F9CAB4083784CBD1874F76618D2A97".data := by decide
  have hup : upperChars (BreachMonitoringService.sha1Hex "password123") =
      "CBFDAC6008F9CAB4083784CBD1874F76618D2A97".data := by decide
  simp only [BreachMonitoringService.checkPassword, BreachMonitoringService.getCachedResult,
    BreachMonitoringService.fetchBranch, BreachMonitoringService.mkFetchedResult, hsfx]
  rw [findCount_of_no_match _ _ hbody, hup]
  rfl

/-- Witness for `checkPassword_password123` at a response body whose only
line carries a different suffix. -/
theorem checkPassword_password123_witness :
    (BreachMonitoringService.checkPassword "password123" (fun _ => none) 0
      (fun _ => ("0018A45C4D1DEF81644B54AB7F969B88D65:4").data)).result =
      Except.ok ⟨false, none, 0, "CBFDAC6008F9CAB4083784CBD1874F76618D2A97".data⟩ :=
  checkPassword_password123.2.2 ("0018A45C4D1DEF81644B54AB7F969B88D65:4").data (by decide)

/-- Every sextet character is in the base64 alphabet. -/
theorem b64Char_mem (n : Nat) : b64Char n ∈ base64Alphabet := by
  unfold b64Char
  by_cases h : n < base64Alphabet.length
  · rw [List.getD_eq_getElem base64Alphabet 'A' h]
    exact List.getElem_mem h
  · rw [List.getD_eq_default _ _ (Nat.le_of_not_lt h)]
    decide

/-- Base64 alphabet characters are neither whitespace nor `=`. -/
theorem base64Alphabet_plain : ∀ c ∈ base64Alphabet,
    BreachMonitoringService.isSpaceChar c = false ∧ c ≠ '=' := by decide

/-- The base64 encoding splits into its alphabet body and its padding. -/
theorem encode_eq_body_pad (bs : List Nat) :
    base64EncodeChunks bs = base64Body bs ++ List.replicate (base64PadLen bs) '=' := by
  induction bs using base64EncodeChunks.induct with
  | case1 => rfl
  | case2 b1 => rfl
  | case3 b1 b2 => rfl
  | case4 b1 b2 b3 rest ih =>
    simp only [base64EncodeChunks, base64Body, base64PadLen, ih, List.cons_append]

/-- The padding length is at most two. -/
theorem base64PadLen_le (bs : List Nat) : base64PadLen bs ≤ 2 := by
  induction bs using base64PadLen.induct with
  | case1 => decide
  | case2 b1 => simp [base64PadLen]
  | case3 b1 b2 => simp [base64PadLen]
  | case4 b1 b2 b3 rest ih => simpa [base64PadLen] using ih

/-- Body length plus padding length is a multiple of four. -/
theorem base64Body_pad_len (bs : List Nat) :
    ((base64Body bs).length + base64PadLen bs) % 4 = 0 := by
  induction bs using base64PadLen.induct with
  | case1 => decide
  | case2 b1 => simp [base64Body, base64PadLen]
  | case3 b1 b2 => simp [base64Body, base64PadLen]
  | case4 b1 b2 b3 rest ih =>
    simp only [base64Body, base64PadLen, List.length_cons] at *
    omega

/-- Every character of the encoding body is in the alphabet. -/
theorem base64Body_chars (bs : List Nat) : ∀ c ∈ base64Body bs, c ∈ base64Alphabet := by
  induction bs using base64PadLen.induct with
  | case1 => simp [base64Body]
  | case2 b1 => simp [base64Body, b64Char_mem]
  | case3 b1 b2 => simp [base64Body, b64Char_mem]
  | case4 b1 b2 b3 rest ih =>
    intro c hc
    simp only [base64Body, List.mem_cons] at hc
    rcases hc with h | h | h | h | h
    · exact h ▸ b64Char_mem _
    · exact h ▸ b64Char_mem _
    · exact h ▸ b64Char_mem _
    · exact h ▸ b64Char_mem _
    · exact ih c h

/-- Whitespace stripping leaves a base64 encoding unchanged. -/
theorem stripWs_encode (bs : List Nat) :
    stripWs (base64EncodeChunks bs) = base64EncodeChunks bs := by
  apply List.filter_eq_self.mpr
  intro c hc
  rw [encode_eq_body_pad] at hc
  rcases List.mem_append.mp hc with h | h
  · simp [(base64Alphabet_plain c (base64Body_chars bs c h)).1]
  · have : c = '=' := List.eq_of_mem_replicate h
    subst this
    decide

/-- A nonempty list of alphabet characters does not end (in reverse, start)
with `=`. -/
theorem reverse_head_ne_eq (B : List Char) (hchars : ∀ c ∈ B, c ∈ base64Alphabet)
    (x : Char) (xs : List Char) (hB : B.reverse = x :: xs) : x ≠ '=' := by
  have hx : x ∈ B := by
    rw [← List.mem_reverse, hB]
    simp
  exact (base64Alphabet_plain x (hchars x hx)).2

/-- Padding stripping of `atob` recovers exactly the alphabet body of a
base64 encoding. -/
theorem dropEqPad_encode (bs : List Nat) :
    dropEqPad (base64EncodeChunks bs) = base64Body bs := by
  rw [encode_eq_body_pad]
  have hlen := base64Body_pad_len bs
  have hle := base64PadLen_le bs
  have hchars := base64Body_chars bs
  rcases hp : base64PadLen bs with _ | _ | _ | n
  · rw [hp] at hlen
    simp only [hp, List.replicate_zero, List.append_nil] at *
    rcases hB : (base64Body bs).reverse with _ | ⟨x, xs⟩
    · simp [dropEqPad, hlen, hB]
    · have hx := reverse_head_ne_eq _ hchars x xs hB
      simp [dropEqPad, hlen, hB, List.take_succ_cons, hx]
  · rw [hp] at hlen
    have hnon : base64Body bs ≠ [] := by
      intro h
      rw [h] at hlen
      simp at hlen
    rcases hB : (base64Body bs).reverse with _ | ⟨x, xs⟩
    · exact absurd (by simpa using congrArg List.reverse hB) hnon
    · have hx := reverse_head_ne_eq _ hchars x xs hB
      have hrev : (base64Body bs ++ List.replicate 1 '=').reverse =
          '=' :: (base64Body bs).reverse := by simp
      simp only [hp, dropEqPad, List.length_append, List.length_replicate, hlen, hrev, hB]
      simp [List.take_succ_cons, hx, List.dropLast_concat]
  · rw [hp] at hlen
    have hrev : (base64Body bs ++ List.replicate 2 '=').reverse =
        '=' :: '=' :: (base64Body bs).reverse := by simp
    have hsplit : base64Body bs ++ List.replicate 2 '=' =
        (base64Body bs ++ ['=']) ++ ['='] := by simp
    simp only [dropEqPad, List.length_append, List.length_replicate, hlen, hrev]
    simp [hsplit, List.dropLast_concat]
  · omega

/-- Alphabet lookup inverts the sextet character map. -/
theorem b64_index : ∀ n < 64, base64CharIndex (b64Char n) = some n := by decide

/-- Decoding the alphabet body of an encoding recovers the input bytes. -/
theorem decode_body (bs : List Nat) (h : ∀ b ∈ bs, b < 256) :
    base64DecodeChunks (base64Body bs) = some bs := by
  induction bs using base64PadLen.induct with
  | case1 => rfl
  | case2 b1 =>
    have hb1 : b1 < 256 := h b1 (by simp)
    have h1 := b64_index (b1 / 4) (by omega)
    have h2 := b64_index (b1 % 4 * 16) (by omega)
    simp [base64Body, base64DecodeChunks, h1, h2]
    omega
  | case3 b1 b2 =>
    have hb1 : b1 < 256 := h b1 (by simp)
    have hb2 : b2 < 256 := h b2 (by simp)
    have h1 := b64_index (b1 / 4) (by omega)
    have h2 := b64_index (b1 % 4 * 16 + b2 / 16) (by omega)
    have h3 := b64_index (b2 % 16 * 4) (by omega)
    simp [base64Body, base64DecodeChunks, h1, h2, h3]
    omega
  | case4 b1 b2 b3 rest ih =>
    have hb1 : b1 < 256 := h b1 (by simp)
    have hb2 : b2 < 256 := h b2 (by simp)
    have hb3 : b3 < 256 := h b3 (by simp)
    have ihr := ih (fun b hb => h b (by simp [hb]))
    have h1 := b64_index (b1 / 4) (by omega)
    have h2 := b64_index (b1 % 4 * 16 + b2 / 16) (by omega)
    have h3 := b64_index (b2 % 16 * 4 + b3 / 64) (by omega)
    have h4 := b64_index (b3 % 64) (by omega)
    simp [base64Body, base64DecodeChunks, h1, h2, h3, h4, ihr]
    omega

/-- Base64 decoding inverts base64 encoding on byte lists. -/
theorem fromBase64_toBase64 (bs : List Nat) (h : ∀ b ∈ bs, b < 256) :
    fromBase64 (toBase64 bs) = some bs := by
  rw [fromBase64, toBase64, stripWs_encode, dropEqPad_encode, decode_body bs h]

/-- C1: for every plaintext, every 32-byte key and every fresh nonce of the
algorithm's fixed length (12 bytes for the AES-256-GCM service, 24 for the
libsodium service), decrypting the result of `encrypt` with the same key
returns the plaintext: the envelope base64-encodes nonce‖ciphertext and
`decrypt` slices the fixed nonce length off the decoded blob, so a correct
AEAD open recovers the message. -/
theorem encrypt_decrypt_roundtrip (A : AEAD) (m : String) (key nonce : List Nat) (nLen : Nat)
    (hkey : key.length = 32)
    (hnl : nLen = EncryptionService.NONCE_LEN_GCM ∨ nLen = EncryptionService.NONCE_LEN_SECRETBOX)
    (hA : A.openFn key nonce (A.sealFn key nonce m) = some m)
    (hct : ∀ b ∈ A.sealFn key nonce m, b < 256)
    (hnb : ∀ b ∈ nonce, b < 256)
    (hlen : nonce.length = nLen) :
    EncryptionService.decrypt A nLen (EncryptionService.encrypt A m key nonce) key = some m := by
  have hbytes : ∀ b ∈ nonce ++ A.sealFn key nonce m, b < 256 := by
    intro b hb
    rcases List.mem_append.mp hb with h | h
    · exact hnb b h
    · exact hct b h
  rw [EncryptionService.encrypt, EncryptionService.decrypt, fromBase64_toBase64 _ hbytes]
  show A.openFn key ((nonce ++ A.sealFn key nonce m).take nLen)
    ((nonce ++ A.sealFn key nonce m).drop nLen) = some m
  rw [← hlen, List.take_left, List.drop_left]
  exact hA

/-- Witness for `encrypt_decrypt_roundtrip`: a two-character message under
an all-zero 32-byte key and 12-byte nonce, with a concrete AEAD that seals
to the UTF-8 bytes and opens them back. -/
theorem encrypt_decrypt_roundtrip_witness :
    EncryptionService.decrypt
      ⟨fun _ _ m => utf8Encode m, fun _ _ c => if c = utf8Encode "hi" then some "hi" else none⟩
      12
      (EncryptionService.encrypt
        ⟨fun _ _ m => utf8Encode m, fun _ _ c => if c = utf8Encode "hi" then some "hi" else none⟩
        "hi" (List.replicate 32 0) (List.replicate 12 0))
      (List.replicate 32 0) = some "hi" :=
  encrypt_decrypt_roundtrip
    ⟨fun _ _ m => utf8Encode m, fun _ _ c => if c = utf8Encode "hi" then some "hi" else none⟩
    "hi" (List.replicate 32 0) (List.replicate 12 0) 12
    (by decide) (Or.inl rfl) (by decide) (by decide) (by decide) (by decide)

/-- C2: under an AEAD whose open rejects every ciphertext that is not an
authentic seal under the key, `decrypt` fails (returns no plaintext) on
every blob that is not a base64 encoding of nonce‖ciphertext authentically
sealed under that key — in particular on tampered, truncated, undecodable
or wrong-key blobs. -/
theorem decrypt_rejects_unauthentic (A : AEAD) (key : List Nat) (nLen : Nat) (blob : List Char)
    (hauth : ∀ nonce ct, (∀ m, A.sealFn key nonce m ≠ ct) → A.openFn key nonce ct = none)
    (hnot : ∀ bytes, fromBase64 blob = some bytes →
      ∀ m, A.sealFn key (bytes.take nLen) m ≠ bytes.drop nLen) :
    EncryptionService.decrypt A nLen blob key = none := by
  rw [EncryptionService.decrypt]
  rcases hfb : fromBase64 blob with _ | bytes
  · rfl
  · exact hauth _ _ (hnot bytes hfb)

/-- Witness for `decrypt_rejects_unauthentic`: a 13-zero-byte blob under an
AEAD that seals everything to the empty ciphertext (so the decoded
remainder `[0]` is unauthentic) is rejected. -/
theorem decrypt_rejects_unauthentic_witness :
    EncryptionService.decrypt ⟨fun _ _ _ => [], fun _ _ _ => none⟩ 12
      (toBase64 (List.replicate 13 0)) (List.replicate 32 0) = none :=
  decrypt_rejects_unauthentic ⟨fun _ _ _ => [], fun _ _ _ => none⟩ (List.replicate 32 0) 12
    (toBase64 (List.replicate 13 0))
    (fun _ _ _ => rfl)
    (by
      intro bytes hb m
      have hdec : fromBase64 (toBase64 (List.replicate 13 0)) = some (List.replicate 13 0) :=
        fromBase64_toBase64 _ (by decide)
      rw [hdec] at hb
      cases hb
      simp)

/-- Every sextet emitted by the encoding drain loop is below 32. -/
theorem base32DrainAux_sextets_lt :
    ∀ fuel v b, ∀ s ∈ (TOTPService.base32DrainAux fuel v b).1, s < 32 := by
  intro fuel
  induction fuel with
  | zero => simp [TOTPService.base32DrainAux]
  | succ f ih =>
    intro v b s hs
    simp only [TOTPService.base32DrainAux] at hs
    by_cases h : 5 ≤ b
    · simp only [h, if_true, List.mem_cons] at hs
      rcases hs with h1 | h1
      · omega
      · exact ih _ _ s h1
    · simp [h] at hs

/-- Every sextet emitted by `base32EncodeCore` is below 32. -/
theorem base32EncodeCore_sextets_lt :
    ∀ bs v b, ∀ s ∈ TOTPService.base32EncodeCore bs v b, s < 32 := by
  intro bs
  induction bs with
  | nil =>
    intro v b s hs
    simp only [TOTPService.base32EncodeCore] at hs
    by_cases h : 0 < b
    · simp only [h, if_true, List.mem_singleton] at hs
      omega
    · simp [h] at hs
  | cons x xs ih =>
    intro v b s hs
    simp only [TOTPService.base32EncodeCore, List.mem_append] at hs
    rcases hs with h1 | h1
    · exact base32DrainAux_sextets_lt _ _ _ s h1
    · exact ih _ _ s h1

/-- Every base32 sextet character is in the base32 alphabet. -/
theorem b32Char_mem (n : Nat) : TOTPService.base32Alphabet.getD n 'A' ∈
    TOTPService.base32Alphabet := by
  by_cases h : n < TOTPService.base32Alphabet.length
  · rw [List.getD_eq_getElem TOTPService.base32Alphabet 'A' h]
    exact List.getElem_mem h
  · rw [List.getD_eq_default _ _ (Nat.le_of_not_lt h)]
    decide

/-- Base32 alphabet characters are upper-case-fixed, recognized by the
filter, and distinct from `=`. -/
theorem base32Alphabet_plain : ∀ c ∈ TOTPService.base32Alphabet,
    upperChar c = c ∧ TOTPService.isBase32Char c = true ∧ c ≠ '=' := by decide

/-- Alphabet lookup inverts the sextet character map. -/
theorem b32_index : ∀ s < 32,
    TOTPService.base32Alphabet.indexOf (TOTPService.base32Alphabet.getD s 'A') = s := by decide

/-- On sextet characters, `base32DecodeCore` computes the sextet-level
decode. -/
theorem base32DecodeCore_map :
    ∀ ss v b, (∀ s ∈ ss, s < 32) →
      TOTPService.base32DecodeCore (ss.map (fun s => TOTPService.base32Alphabet.getD s 'A')) v b =
        TOTPService.base32DecodeSex ss v b := by
  intro ss
  induction ss with
  | nil => intro v b _; rfl
  | cons s rest ih =>
    intro v b h
    have hs : s < 32 := h s (by simp)
    have hidx := b32_index s hs
    simp only [List.map_cons, TOTPService.base32DecodeCore, TOTPService.base32DecodeSex, hidx]
    have hge : ¬ (s ≥ 32) := by omega
    simp only [hge, if_false]
    have hrest : ∀ t ∈ rest, t < 32 := fun t ht => h t (by simp [ht])
    by_cases hb : 8 ≤ b + 5
    · simp only [hb, if_true, ih _ _ hrest]
    · simp only [hb, if_false, ih _ _ hrest]

/-- Round trip of one byte through encode-then-decode at empty state. -/
theorem base32_rt_1 (b1 : Nat) (h1 : b1 < 256) :
    TOTPService.base32DecodeSex (TOTPService.base32EncodeCore [b1] 0 0) 0 0 = [b1] := by
  simp [TOTPService.base32EncodeCore, TOTPService.base32DrainAux, TOTPService.base32DecodeSex,
    Nat.mod_one]
  omega

/-- Round trip of two bytes through encode-then-decode at empty state. -/
theorem base32_rt_2 (b1 b2 : Nat) (h1 : b1 < 256) (h2 : b2 < 256) :
    TOTPService.base32DecodeSex (TOTPService.base32EncodeCore [b1, b2] 0 0) 0 0 = [b1, b2] := by
  simp [TOTPService.base32EncodeCore, TOTPService.base32DrainAux, TOTPService.base32DecodeSex,
    Nat.mod_one]
  omega

/-- Round trip of three bytes through encode-then-decode at empty state. -/
theorem base32_rt_3 (b1 b2 b3 : Nat) (h1 : b1 < 256) (h2 : b2 < 256) (h3 : b3 < 256) :
    TOTPService.base32DecodeSex (TOTPService.base32EncodeCore [b1, b2, b3] 0 0) 0 0 =
      [b1, b2, b3] := by
  simp [TOTPService.base32EncodeCore, TOTPService.base32DrainAux, TOTPService.base32DecodeSex,
    Nat.mod_one]
  omega

/-- Round trip of four bytes through encode-then-decode at empty state. -/
theorem base32_rt_4 (b1 b2 b3 b4 : Nat) (h1 : b1 < 256) (h2 : b2 < 256) (h3 : b3 < 256)
    (h4 : b4 < 256) :
    TOTPService.base32DecodeSex (TOTPService.base32EncodeCore [b1, b2, b3, b4] 0 0) 0 0 =
      [b1, b2, b3, b4] := by
  simp [TOTPService.base32EncodeCore, TOTPService.base32DrainAux, TOTPService.base32DecodeSex,
    Nat.mod_one]
  omega

/-- After five bytes the encoder state returns to empty, so encode-decode
steps over a five-byte block. -/
theorem base32_block_step (b1 b2 b3 b4 b5 : Nat) (rest : List Nat)
    (h1 : b1 < 256) (h2 : b2 < 256) (h3 : b3 < 256) (h4 : b4 < 256) (h5 : b5 < 256) :
    TOTPService.base32DecodeSex
        (TOTPService.base32EncodeCore (b1 :: b2 :: b3 :: b4 :: b5 :: rest) 0 0) 0 0 =
      b1 :: b2 :: b3 :: b4 :: b5 ::
        TOTPService.base32DecodeSex (TOTPService.base32EncodeCore rest 0 0) 0 0 := by
  simp [TOTPService.base32EncodeCore, TOTPService.base32DrainAux, TOTPService.base32DecodeSex,
    Nat.mod_one]
  omega

/-- Sextet-level encode-then-decode round trip for byte lists. -/
theorem base32_roundtrip_sex :
    ∀ n bs, bs.length ≤ n → (∀ b ∈ bs, b < 256) →
      TOTPService.base32DecodeSex (TOTPService.base32EncodeCore bs 0 0) 0 0 = bs := by
  intro n
  induction n with
  | zero =>
    intro bs hlen _
    have : bs = [] := List.eq_nil_of_length_eq_zero (by omega)
    subst this
    rfl
  | succ k ih =>
    intro bs hlen hb
    rcases bs with _ | ⟨b1, bs1⟩
    · rfl
    rcases bs1 with _ | ⟨b2, bs2⟩
    · exact base32_rt_1 b1 (hb b1 (by simp))
    rcases bs2 with _ | ⟨b3, bs3⟩
    · exact base32_rt_2 b1 b2 (hb b1 (by simp)) (hb b2 (by simp))
    rcases bs3 with _ | ⟨b4, bs4⟩
    · exact base32_rt_3 b1 b2 b3 (hb b1 (by simp)) (hb b2 (by simp)) (hb b3 (by simp))
    rcases bs4 with _ | ⟨b5, rest⟩
    · exact base32_rt_4 b1 b2 b3 b4 (hb b1 (by simp)) (hb b2 (by simp)) (hb b3 (by simp))
        (hb b4 (by simp))
    rw [base32_block_step b1 b2 b3 b4 b5 rest (hb b1 (by simp)) (hb b2 (by simp))
      (hb b3 (by simp)) (hb b4 (by simp)) (hb b5 (by simp))]
    have hrest : rest.length ≤ k := by
      simp only [List.length_cons] at hlen
      omega
    rw [ih rest hrest (fun b hmem => hb b (by simp [hmem]))]

/-- Characters produced by `bytesToBase32` are alphabet characters. -/
theorem bytesToBase32_chars (bs : List Nat) :
    ∀ c ∈ TOTPService.bytesToBase32 bs, c ∈ TOTPService.base32Alphabet := by
  intro c hc
  simp only [TOTPService.bytesToBase32, List.mem_map] at hc
  rcases hc with ⟨a, _, rfl⟩
  exact b32Char_mem a

/-- Upper-casing then filtering leaves a list of alphabet characters
unchanged. -/
theorem clean_fixes_alphabet (l : List Char) (h : ∀ c ∈ l, c ∈ TOTPService.base32Alphabet) :
    (upperChars l).filter (fun c => TOTPService.isBase32Char c) = l := by
  have hupper : upperChars l = l := by
    unfold upperChars
    conv_rhs => rw [← List.map_id l]
    exact List.map_congr_left (fun a ha => (base32Alphabet_plain a (h a ha)).1)
  rw [hupper]
  exact List.filter_eq_self.mpr (fun a ha => (base32Alphabet_plain a (h a ha)).2.1)

/-- C10: decoding the base32 encoding of any byte list returns the list
exactly; the encoding consists only of characters from the `A–Z2–7`
alphabet with no `=` padding; and decoding is invariant under first
upper-casing and discarding every character outside the alphabet —
`base32ToBytes` is total and silently skips such characters. -/
theorem base32_encode_decode_roundtrip (bs : List Nat) (h : ∀ b ∈ bs, b < 256) :
    TOTPService.base32ToBytes (TOTPService.bytesToBase32 bs) = bs ∧
    (∀ c ∈ TOTPService.bytesToBase32 bs, c ∈ TOTPService.base32Alphabet ∧ c ≠ '=') ∧
    ∀ s : List Char, TOTPService.base32ToBytes s =
      TOTPService.base32ToBytes ((upperChars s).filter (fun c => TOTPService.isBase32Char c)) := by
  refine ⟨?_, ?_, ?_⟩
  · have hlt := base32EncodeCore_sextets_lt bs 0 0
    unfold TOTPService.base32ToBytes
    rw [clean_fixes_alphabet _ (bytesToBase32_chars bs)]
    unfold TOTPService.bytesToBase32
    rw [base32DecodeCore_map _ 0 0 hlt, base32_roundtrip_sex bs.length bs le_rfl h]
  · intro c hc
    have hmem := bytesToBase32_chars bs c hc
    exact ⟨hmem, (base32Alphabet_plain c hmem).2.2⟩
  · intro s
    unfold TOTPService.base32ToBytes
    congr 1
    have hmem : ∀ c ∈ (upperChars s).filter (fun c => TOTPService.isBase32Char c),
        c ∈ TOTPService.base32Alphabet := by
      intro c hc
      have h2 := (List.mem_filter.mp hc).2
      simp only [TOTPService.isBase32Char, List.contains] at h2
      exact List.mem_of_elem_eq_true h2
    rw [clean_fixes_alphabet _ hmem]

/-- Witness for `base32_encode_decode_roundtrip` at the bytes
`[0, 255, 17]`. -/
theorem base32_encode_decode_roundtrip_witness :
    TOTPService.base32ToBytes (TOTPService.bytesToBase32 [0, 255, 17]) = [0, 255, 17] ∧
    (∀ c ∈ TOTPService.bytesToBase32 [0, 255, 17],
      c ∈ TOTPService.base32Alphabet ∧ c ≠ '=') ∧
    ∀ s : List Char, TOTPService.base32ToBytes s =
      TOTPService.base32ToBytes ((upperChars s).filter (fun c => TOTPService.isBase32Char c)) :=
  base32_encode_decode_roundtrip [0, 255, 17] (by decide)

/-- Witness for `checkPassword_leak_bound`: on a cache miss for "pw", the
single request made is the range URL built from the 5-character prefix. -/
theorem checkPassword_leak_bound_witness :
    (BreachMonitoringService.HIBP_API_BASE ++ "/range/".data ++
        (upperChars (BreachMonitoringService.sha1Hex "pw")).take 5 =
      BreachMonitoringService.HIBP_API_BASE ++ "/range/".data ++
        (upperChars (BreachMonitoringService.sha1Hex "pw")).take 5) ∧
    ((upperChars (BreachMonitoringService.sha1Hex "pw")).take 5).length ≤ 5 :=
  (checkPassword_leak_bound "pw" (fun _ => none) 0 (fun _ => [])).2
    (BreachMonitoringService.HIBP_API_BASE ++ "/range/".data ++
      (upperChars (BreachMonitoringService.sha1Hex "pw")).take 5)
    (by decide)
